import Mathlib

/-
Verification of the core of reel_tracker_bot.py: shortcode extraction,
the submit pipeline (cooldown, account authorization, dedup, snapshot and
audit bookkeeping), removal, per-user stats, and the background view
refresh cycle.  SQL tables are embedded as Lean lists of rows; each
operation is a pure function from a database state (plus oracles for the
external fetcher and the clock) to a new state and a result.
-/

namespace ReelBot

/-! ## Shortcode extraction

Model of extract_shortcode (reel_tracker_bot.py:116-118), which runs
re.search with pattern instagram\.com/reel/([^/?]+) and returns the first
capture group, or None when the pattern does not occur. -/

/-- Characters the capture group accepts: the character class excludes
only a slash and a question mark. -/
def isCodeChar (c : Char) : Bool := !(c == '/' || c == '?')

/-- Character list of the literal part of the pattern; the regex escapes
the dot, so every character is matched literally. -/
def needle : List Char :=
  ['i','n','s','t','a','g','r','a','m','.','c','o','m','/','r','e','e','l','/']

/-- Attempt to match the pattern at the head of the list: the literal part
must be a prefix and must be followed by at least one accepted character;
the greedy capture group takes the maximal run of accepted characters. -/
def matchAt (s : List Char) : Option (List Char) :=
  if needle.isPrefixOf s then
    let code := (s.drop needle.length).takeWhile isCodeChar
    if code.isEmpty then none else some code
  else none

/-- Unanchored scan, mirroring re.search: try the pattern at each start
position left to right and return the first successful capture. -/
def searchFrom : List Char → Option (List Char)
  | [] => none
  | c :: cs =>
    match matchAt (c :: cs) with
    | some r => some r
    | none => searchFrom cs

/-- Model of extract_shortcode: the capture of the first match, as a
string, or failure. -/
def extract_shortcode (link : String) : Option String :=
  (searchFrom link.data).map List.asString

/-- Position i of s starts an occurrence of the pattern: the literal part
is present there and is followed by at least one accepted character. -/
def validAtB (s : List Char) (i : Nat) : Bool :=
  needle.isPrefixOf (s.drop i) &&
    match (s.drop (i + needle.length)).head? with
    | some c => isCodeChar c
    | none => false

/-! ### Extraction lemmas -/

theorem searchFrom_cons (c : Char) (cs : List Char) :
    searchFrom (c :: cs) =
      match matchAt (c :: cs) with
      | some r => some r
      | none => searchFrom cs := rfl

theorem matchAt_cons_ne (c : Char) (cs : List Char) (h : ('i' == c) = false) :
    matchAt (c :: cs) = none := by
  simp only [matchAt, needle, List.isPrefixOf, h, Bool.false_and]
  rfl

theorem searchFrom_cons_ne (c : Char) (cs : List Char) (h : ('i' == c) = false) :
    searchFrom (c :: cs) = searchFrom cs := by
  rw [searchFrom_cons, matchAt_cons_ne c cs h]

theorem searchFrom_eq_of_matchAt (s r : List Char) (hs : s ≠ [])
    (h : matchAt s = some r) : searchFrom s = some r := by
  cases s with
  | nil => exact absurd rfl hs
  | cons c cs => rw [searchFrom_cons, h]

theorem takeWhile_eq_nil_of_headD (p : Char → Bool) (l : List Char)
    (h : p (l.headD '/') = false) :
    l.takeWhile p = [] := by
  cases l with
  | nil => rfl
  | cons c cs =>
    have hc : p c = false := by simpa using h
    simp [List.takeWhile_cons, hc]

theorem takeWhile_append_of_all (p : Char → Bool) (a b : List Char)
    (ha : ∀ c ∈ a, p c = true) (hb : b.takeWhile p = []) :
    (a ++ b).takeWhile p = a := by
  induction a with
  | nil => simpa using hb
  | cons c cs ih =>
    have hc : p c = true := ha c (by simp)
    simp only [List.cons_append, List.takeWhile_cons, hc, if_true]
    rw [ih (fun d hd => ha d (by simp [hd]))]

theorem matchAt_needle_append (rest : List Char)
    (h : rest.takeWhile isCodeChar ≠ []) :
    matchAt (needle ++ rest) = some (rest.takeWhile isCodeChar) := by
  unfold matchAt
  rw [if_pos, List.drop_left]
  · rw [if_neg]
    simpa [List.isEmpty_iff] using h
  · exact List.isPrefixOf_iff_prefix.mpr (List.prefix_append needle rest)

theorem searchFrom_needle_append (rest : List Char)
    (h : rest.takeWhile isCodeChar ≠ []) :
    searchFrom (needle ++ rest) = some (rest.takeWhile isCodeChar) := by
  refine searchFrom_eq_of_matchAt _ _ (by simp [needle]) (matchAt_needle_append rest h)

/-- Scheme-and-host prefix of the canonical reel URL family, up to the
start of the pattern text. -/
def httpsChars : List Char := ['h','t','t','p','s',':','/','/','w','w','w','.']

theorem searchFrom_https (rest : List Char) :
    searchFrom (httpsChars ++ rest) = searchFrom rest := by
  show searchFrom ('h' :: 't' :: 't' :: 'p' :: 's' :: ':' :: '/' :: '/' :: 'w' :: 'w' :: 'w' :: '.' :: rest) = searchFrom rest
  rw [searchFrom_cons_ne _ _ (by decide), searchFrom_cons_ne _ _ (by decide),
    searchFrom_cons_ne _ _ (by decide), searchFrom_cons_ne _ _ (by decide),
    searchFrom_cons_ne _ _ (by decide), searchFrom_cons_ne _ _ (by decide),
    searchFrom_cons_ne _ _ (by decide), searchFrom_cons_ne _ _ (by decide),
    searchFrom_cons_ne _ _ (by decide), searchFrom_cons_ne _ _ (by decide),
    searchFrom_cons_ne _ _ (by decide), searchFrom_cons_ne _ _ (by decide)]

theorem matchAt_isSome_eq_validAtB (s : List Char) (i : Nat) :
    (matchAt (s.drop i)).isSome = validAtB s i := by
  unfold matchAt validAtB
  cases hp : needle.isPrefixOf (s.drop i) with
  | false => simp [hp]
  | true =>
    simp only [hp, if_true, Bool.true_and]
    rw [show (s.drop i).drop needle.length = s.drop (i + needle.length) from by
      rw [List.drop_drop, Nat.add_comm]]
    cases hh : (s.drop (i + needle.length)).head? with
    | none =>
      have : s.drop (i + needle.length) = [] := List.head?_eq_none_iff.mp hh
      simp [this]
    | some c =>
      obtain ⟨t, ht⟩ : ∃ t, s.drop (i + needle.length) = c :: t := by
        cases hd : s.drop (i + needle.length) with
        | nil => rw [hd] at hh; simp at hh
        | cons x xs => rw [hd] at hh; simp at hh; exact ⟨xs, by rw [hh]⟩
      rw [ht]
      cases hc : isCodeChar c with
      | false => simp [List.takeWhile_cons, hc]
      | true => simp [List.takeWhile_cons, hc]

theorem searchFrom_isSome_iff (s : List Char) :
    (searchFrom s).isSome = true ↔ ∃ i, (matchAt (s.drop i)).isSome = true := by
  induction s with
  | nil =>
    constructor
    · intro h; simp [searchFrom] at h
    · rintro ⟨i, hi⟩
      rw [show (List.drop i ([] : List Char)) = [] from List.drop_nil] at hi
      simp [matchAt, needle, List.isPrefixOf] at hi
  | cons c cs ih =>
    rw [searchFrom_cons]
    cases hm : matchAt (c :: cs) with
    | some r =>
      simp only [Option.isSome_some, true_iff]
      exact ⟨0, by simp [hm]⟩
    | none =>
      simp only []
      rw [ih]
      constructor
      · rintro ⟨i, hi⟩
        exact ⟨i + 1, by simpa using hi⟩
      · rintro ⟨i, hi⟩
        cases i with
        | zero => rw [List.drop_zero, hm] at hi; simp at hi
        | succ j => exact ⟨j, by simpa using hi⟩

theorem searchFrom_first (s : List Char) (code : List Char)
    (h : searchFrom s = some code) :
    ∃ i, matchAt (s.drop i) = some code ∧ ∀ j, j < i → matchAt (s.drop j) = none := by
  induction s with
  | nil => simp [searchFrom] at h
  | cons c cs ih =>
    rw [searchFrom_cons] at h
    cases hm : matchAt (c :: cs) with
    | some r =>
      rw [hm] at h
      refine ⟨0, ?_, ?_⟩
      · simpa [hm] using h
      · intro j hj; omega
    | none =>
      rw [hm] at h
      obtain ⟨i, hi, hfirst⟩ := ih h
      refine ⟨i + 1, by simpa using hi, ?_⟩
      intro j hj
      cases j with
      | zero => simpa using hm
      | succ k => simpa using hfirst k (by omega)

theorem matchAt_eq_some (t : List Char) (code : List Char)
    (h : matchAt t = some code) :
    code = (t.drop needle.length).takeWhile isCodeChar := by
  unfold matchAt at h
  by_cases hp : needle.isPrefixOf t = true
  · simp only [hp, if_true] at h
    by_cases he : ((t.drop needle.length).takeWhile isCodeChar).isEmpty = true
    · simp [he] at h
    · simp only [he, if_false] at h
      simp only [Bool.not_eq_true] at he
      exact (Option.some_inj.mp h).symm
  · simp [hp] at h

/-! ### Claims C7 and C10 -/

/-- Claim C7: shortcode extraction is a pure, deterministic, total
function of its input string: equal inputs give equal outcomes; for every
URL of the known reel URL family (canonical prefix, nonempty identifier
made of accepted characters, then end of string or a delimiter) it
returns the embedded identifier; and for any string with no occurrence of
the pattern anywhere it returns a definite failure (none). -/
theorem extract_shortcode_pure_total :
    (∀ s t : String, s = t → extract_shortcode s = extract_shortcode t)
    ∧ (∀ code tail : String, code.data ≠ [] →
        (∀ c ∈ code.data, isCodeChar c = true) →
        isCodeChar (tail.data.headD '/') = false →
        extract_shortcode ("https://www.instagram.com/reel/" ++ code ++ tail)
          = some code)
    ∧ (∀ s : String, (∀ i, i < s.data.length → validAtB s.data i = false) →
        extract_shortcode s = none) := by
  refine ⟨fun s t h => by rw [h], ?_, ?_⟩
  · intro code tail hne hall htail
    have htl : tail.data.takeWhile isCodeChar = [] :=
      takeWhile_eq_nil_of_headD _ _ htail
    have hdata : ("https://www.instagram.com/reel/" ++ code ++ tail).data
        = httpsChars ++ (needle ++ (code.data ++ tail.data)) := by
      rw [String.data_append, String.data_append]
      show httpsChars ++ needle ++ code.data ++ tail.data = _
      simp [List.append_assoc]
    have htake : (code.data ++ tail.data).takeWhile isCodeChar = code.data :=
      takeWhile_append_of_all _ _ _ hall htl
    unfold extract_shortcode
    rw [hdata, searchFrom_https, searchFrom_needle_append _ (by rw [htake]; exact hne),
      htake]
    simp [List.asString]
  · intro s hnone
    unfold extract_shortcode
    cases hs : searchFrom s.data with
    | none => rfl
    | some r =>
      exfalso
      have : (searchFrom s.data).isSome = true := by rw [hs]; rfl
      obtain ⟨i, hi⟩ := (searchFrom_isSome_iff s.data).mp this
      by_cases hlt : i < s.data.length
      · rw [matchAt_isSome_eq_validAtB] at hi
        rw [hnone i hlt] at hi
        exact Bool.false_ne_true hi
      · rw [List.drop_eq_nil_of_le (by omega)] at hi
        simp [matchAt, needle, List.isPrefixOf] at hi

/-- Witness for C7: a canonical reel URL with identifier abc and a query
tail extracts to abc, and a string with no occurrence of the pattern
extracts to nothing. -/
theorem extract_shortcode_pure_total_witness :
    extract_shortcode ("https://www.instagram.com/reel/" ++ "abc" ++ "?i=1")
        = some "abc"
    ∧ extract_shortcode ("hello") = none := by
  constructor
  · exact extract_shortcode_pure_total.2.1 ("abc") ("?i=1") (by decide) (by decide)
      (by decide)
  · exact extract_shortcode_pure_total.2.2 ("hello") (by decide)

/-- Claim C10: extraction is an unanchored substring match: it succeeds
exactly on the strings that contain, anywhere, the pattern text followed
by at least one character other than a slash or question mark (no scheme
or host validation, no shortcode-alphabet check), and the value it
returns is the maximal run of accepted characters after the first such
occurrence. -/
theorem extract_shortcode_substring_match (s : String) :
    ((extract_shortcode s).isSome = true ↔ ∃ i, validAtB s.data i = true)
    ∧ (∀ code : String, extract_shortcode s = some code →
        ∃ i, validAtB s.data i = true
          ∧ (∀ j, j < i → validAtB s.data j = false)
          ∧ code.data = ((s.data.drop i).drop needle.length).takeWhile isCodeChar) := by
  constructor
  · rw [show (extract_shortcode s).isSome = (searchFrom s.data).isSome from by
      unfold extract_shortcode; cases searchFrom s.data <;> rfl]
    rw [searchFrom_isSome_iff]
    constructor
    · rintro ⟨i, hi⟩; exact ⟨i, by rw [← matchAt_isSome_eq_validAtB]; exact hi⟩
    · rintro ⟨i, hi⟩; exact ⟨i, by rw [matchAt_isSome_eq_validAtB]; exact hi⟩
  · intro code hcode
    unfold extract_shortcode at hcode
    cases hs : searchFrom s.data with
    | none => rw [hs] at hcode; exact Option.noConfusion hcode
    | some r =>
      rw [hs] at hcode
      have hcode2 : List.asString r = code := Option.some.inj hcode
      obtain ⟨i, hi, hfirst⟩ := searchFrom_first s.data r hs
      refine ⟨i, ?_, ?_, ?_⟩
      · rw [← matchAt_isSome_eq_validAtB, hi]; rfl
      · intro j hj
        rw [← matchAt_isSome_eq_validAtB, hfirst j hj]; rfl
      · rw [← hcode2]
        simpa [List.asString] using matchAt_eq_some _ _ hi

/-- Witness for C10: on a non-URL input with no scheme and an identifier
outside the shortcode alphabet, extraction still succeeds; the theorem
instance locates the first occurrence and the maximal run. -/
theorem extract_shortcode_substring_match_witness :
    ∃ i, validAtB ("xinstagram.com/reel/ab!c?z").data i = true
      ∧ (∀ j, j < i → validAtB ("xinstagram.com/reel/ab!c?z").data j = false)
      ∧ ("ab!c").data
          = ((("xinstagram.com/reel/ab!c?z").data.drop i).drop needle.length).takeWhile isCodeChar :=
  (extract_shortcode_substring_match ("xinstagram.com/reel/ab!c?z")).2 ("ab!c") (by decide)

/-! ## Database state

Embedding of the SQL schema created by init_db (reel_tracker_bot.py:74-113).
Timestamps are integers (the code stores sortable text timestamps; their
order is the numeric order here).  The reels table has a SERIAL primary
key, modelled by the nextReelId counter, and a UNIQUE(user_id, shortcode)
constraint, modelled by the membership guard in the submit transaction. -/

/-- Row of the reels table: id, user_id, shortcode, username (the reel
owner's handle as resolved at submission time). -/
structure Reel where
  id : Nat
  userId : Nat
  shortcode : String
  ownerName : String
deriving DecidableEq

/-- Row of the views table: reel_id, timestamp, count. -/
structure ViewRow where
  reelId : Nat
  timestamp : Int
  count : Nat
deriving DecidableEq

/-- Row of the audit table: user_id, action, shortcode, timestamp. -/
structure AuditRow where
  userId : Nat
  action : String
  shortcode : String
  timestamp : Int
deriving DecidableEq

/-- Whole database state, one list of rows per table. -/
structure DB where
  users : List (Nat × String)
  accounts : List (Nat × String)
  reels : List Reel
  views : List ViewRow
  cooldowns : List (Nat × Int)
  audit : List AuditRow
  nextReelId : Nat
deriving DecidableEq

/-- Lookup of the cooldowns row of a user (SELECT last_submit FROM
cooldowns WHERE user_id=:u, reel_tracker_bot.py:255-257). -/
def lookupCooldown (db : DB) (u : Nat) : Option Int :=
  (db.cooldowns.find? (fun p => p.1 == u)).map (fun p => p.2)

/-- Upsert of a cooldowns row (INSERT ... ON CONFLICT(user_id) DO UPDATE,
reel_tracker_bot.py:268-271). -/
def setCooldown (cs : List (Nat × Int)) (u : Nat) (t : Int) : List (Nat × Int) :=
  if cs.any (fun p => p.1 == u) then
    cs.map (fun p => if p.1 == u then (u, t) else p)
  else cs ++ [(u, t)]

/-- Upsert of a users row (INSERT ... ON CONFLICT(user_id) DO UPDATE,
reel_tracker_bot.py:293-296). -/
def setUser (us : List (Nat × String)) (u : Nat) (n : String) : List (Nat × String) :=
  if us.any (fun p => p.1 == u) then
    us.map (fun p => if p.1 == u then (u, n) else p)
  else us ++ [(u, n)]

/-- Lowercasing as used by the handle comparison. -/
def lowerStr (s : String) : String := List.asString (s.data.map Char.toLower)

/-- Leading at-sign stripping, as in handle.lstrip. -/
def lstripAt (s : String) : String := List.asString (s.data.dropWhile (fun c => c == '@'))

/-- Normalized handles the user may submit from (SELECT insta_handle FROM
user_accounts WHERE user_id=:u, then lstrip and lower,
reel_tracker_bot.py:273-277). -/
def allowedHandles (db : DB) (u : Nat) : List String :=
  (db.accounts.filter (fun p => p.1 == u)).map (fun p => lowerStr (lstripAt p.2))

/-- The external fetch used during submission: shortcode to the post's
owner_username and video_view_count, or a fetch failure
(instaloader.Post.from_shortcode, reel_tracker_bot.py:286). -/
def Fetch : Type := String → Option (String × Nat)

/-- Result of one submit command. -/
inductive SubmitResult where
  | usage
  | tooMany
  | cooldown (rem : Int)
  | noAccount
  | batch (successes : Nat) (failures : List (String × String))
deriving DecidableEq

/-- Per-link processing inside the submit loop
(reel_tracker_bot.py:281-312): extract the shortcode, fetch the post,
check the owner handle against the user's allowed handles, then run the
users-upsert, reel-insert, initial-snapshot and audit-append as one
transaction; a uniqueness conflict on (user_id, shortcode) rolls the
whole transaction back and reports the already-submitted failure. -/
def processLink (uid : Nat) (uname : String) (now : Int) (f : Fetch)
    (allowed : List String) (db : DB) (link : String) :
    DB × Option (String × String) :=
  match extract_shortcode link with
  | none => (db, some (link, "invalid URL"))
  | some sc =>
    match f sc with
    | none => (db, some (link, "fetch error"))
    | some (owner, v0) =>
      if lowerStr owner ∈ allowed then
        if db.reels.any (fun r => r.userId == uid && r.shortcode == sc) then
          (db, some (link, "already submitted"))
        else
          ({ db with
              users := setUser db.users uid uname
              reels := db.reels ++ [⟨db.nextReelId, uid, sc, owner⟩]
              views := db.views ++ [⟨db.nextReelId, now, v0⟩]
              audit := db.audit ++ [⟨uid, "submitted", sc, now⟩]
              nextReelId := db.nextReelId + 1 }, none)
      else (db, some (link, "not your account"))

/-- Left-to-right run of the batch, counting successes and collecting
per-link failures in order (reel_tracker_bot.py:280-312). -/
def runBatch (uid : Nat) (uname : String) (now : Int) (f : Fetch)
    (allowed : List String) : DB → List String → DB × Nat × List (String × String)
  | db, [] => (db, 0, [])
  | db, l :: ls =>
    match processLink uid uname now f allowed db l with
    | (db1, none) =>
      let r := runBatch uid uname now f allowed db1 ls
      (r.1, r.2.1 + 1, r.2.2)
    | (db1, some fail) =>
      let r := runBatch uid uname now f allowed db1 ls
      (r.1, r.2.1, fail :: r.2.2)

/-- State right after the cooldown upsert has been committed
(reel_tracker_bot.py:268-272). -/
def afterCooldownState (db : DB) (uid : Nat) (now : Int) : DB :=
  { db with cooldowns := setCooldown db.cooldowns uid now }

/-- Continuation of submit after the cooldown check has passed: the
cooldown row is upserted and committed first, then the owned-account
check runs, then the batch (reel_tracker_bot.py:268-312). -/
def submitAfterCooldown (uid : Nat) (uname : String) (now : Int)
    (links : List String) (f : Fetch) (db : DB) : DB × SubmitResult :=
  if (allowedHandles (afterCooldownState db uid now) uid).isEmpty then
    (afterCooldownState db uid now, SubmitResult.noAccount)
  else
    let r := runBatch uid uname now f
      (allowedHandles (afterCooldownState db uid now) uid)
      (afterCooldownState db uid now) links
    (r.1, SubmitResult.batch r.2.1 r.2.2)

/-- Model of the submit command (reel_tracker_bot.py:244-318): usage
checks on the link list, then the cooldown gate computing the remaining
time 60 - (now - last) and denying while it is positive, then the
post-cooldown pipeline. -/
def submit (uid : Nat) (uname : String) (now : Int) (links : List String)
    (f : Fetch) (db : DB) : DB × SubmitResult :=
  if links.isEmpty then (db, SubmitResult.usage)
  else if links.length > 5 then (db, SubmitResult.tooMany)
  else
    match lookupCooldown db uid with
    | some last =>
      if (60 : Int) - (now - last) > 0 then
        (db, SubmitResult.cooldown ((60 : Int) - (now - last)))
      else submitAfterCooldown uid uname now links f db
    | none => submitAfterCooldown uid uname now links f db

/-- The cooldown gate lets the attempt through: either no cooldowns row
exists for the user, or the remaining time is not positive. -/
def cooldownOk (db : DB) (uid : Nat) (now : Int) : Bool :=
  match lookupCooldown db uid with
  | none => true
  | some last => decide ((60 : Int) - (now - last) ≤ 0)

/-! ### Submit pipeline lemmas -/

theorem find?_upd (cs : List (Nat × Int)) (u : Nat) (t : Int)
    (h : cs.any (fun p => p.1 == u) = true) :
    ((cs.map (fun p => if p.1 == u then (u, t) else p)).find?
        (fun p => p.1 == u)).map (fun p => p.2) = some t := by
  induction cs with
  | nil => simp at h
  | cons p ps ih =>
    cases hp : (p.1 == u) with
    | true =>
      rw [List.map_cons, if_pos hp, List.find?_cons_of_pos _ (by simp)]
      rfl
    | false =>
      have h2 : ps.any (fun p => p.1 == u) = true := by
        rw [List.any_cons, hp, Bool.false_or] at h
        exact h
      rw [List.map_cons, if_neg (by rw [hp]; exact Bool.false_ne_true),
        List.find?_cons_of_neg _ (by simp [hp])]
      exact ih h2

theorem find?_append_single (cs : List (Nat × Int)) (u : Nat) (t : Int)
    (h : cs.any (fun p => p.1 == u) = false) :
    ((cs ++ [(u, t)]).find? (fun p => p.1 == u)).map (fun p => p.2) = some t := by
  induction cs with
  | nil =>
    rw [List.nil_append, List.find?_cons_of_pos _ (by simp)]
    rfl
  | cons p ps ih =>
    have hp : (p.1 == u) = false := by
      cases hc : (p.1 == u) with
      | false => rfl
      | true => rw [List.any_cons, hc] at h; simp at h
    have h2 : ps.any (fun p => p.1 == u) = false := by
      rw [List.any_cons, hp, Bool.false_or] at h
      exact h
    rw [List.cons_append, List.find?_cons_of_neg _ (by simp [hp])]
    exact ih h2

theorem lookup_setCooldown (cs : List (Nat × Int)) (u : Nat) (t : Int) :
    ((setCooldown cs u t).find? (fun p => p.1 == u)).map (fun p => p.2) = some t := by
  unfold setCooldown
  cases hc : cs.any (fun p => p.1 == u) with
  | true => rw [if_pos rfl]; exact find?_upd cs u t hc
  | false => rw [if_neg Bool.false_ne_true]; exact find?_append_single cs u t hc

theorem processLink_frame (uid : Nat) (uname : String) (now : Int) (f : Fetch)
    (allowed : List String) (db : DB) (l : String) :
    (processLink uid uname now f allowed db l).1.cooldowns = db.cooldowns
    ∧ (processLink uid uname now f allowed db l).1.accounts = db.accounts := by
  cases hx : extract_shortcode l with
  | none => simp [processLink, hx]
  | some sc =>
    cases hf : f sc with
    | none => simp [processLink, hx, hf]
    | some ov =>
      obtain ⟨owner, v0⟩ := ov
      by_cases hm : lowerStr owner ∈ allowed
      · by_cases ha : db.reels.any (fun r => r.userId == uid && r.shortcode == sc) = true
        · simp [processLink, hx, hf, hm, ha]
        · simp [processLink, hx, hf, hm, ha]
      · simp [processLink, hx, hf, hm]

theorem runBatch_frame (uid : Nat) (uname : String) (now : Int) (f : Fetch)
    (allowed : List String) (db : DB) (links : List String) :
    (runBatch uid uname now f allowed db links).1.cooldowns = db.cooldowns
    ∧ (runBatch uid uname now f allowed db links).1.accounts = db.accounts := by
  induction links generalizing db with
  | nil => exact ⟨rfl, rfl⟩
  | cons l ls ih =>
    unfold runBatch
    cases hp : processLink uid uname now f allowed db l with
    | mk db1 res =>
      have hframe := processLink_frame uid uname now f allowed db l
      rw [hp] at hframe
      cases res with
      | none =>
        refine ⟨?_, ?_⟩
        · simpa [(ih db1).1] using hframe.1
        · simpa [(ih db1).2] using hframe.2
      | some fail =>
        refine ⟨?_, ?_⟩
        · simpa [(ih db1).1] using hframe.1
        · simpa [(ih db1).2] using hframe.2

theorem submitAfterCooldown_cooldowns (uid : Nat) (uname : String) (now : Int)
    (links : List String) (f : Fetch) (db : DB) :
    lookupCooldown (submitAfterCooldown uid uname now links f db).1 uid = some now := by
  unfold submitAfterCooldown lookupCooldown
  by_cases he : (allowedHandles (afterCooldownState db uid now) uid).isEmpty = true
  · rw [if_pos he]
    exact lookup_setCooldown db.cooldowns uid now
  · rw [if_neg he]
    show (((runBatch uid uname now f _ (afterCooldownState db uid now) links).1.cooldowns.find?
        (fun p => p.1 == uid)).map (fun p => p.2)) = some now
    rw [(runBatch_frame uid uname now f _ (afterCooldownState db uid now) links).1]
    exact lookup_setCooldown db.cooldowns uid now

theorem submitAfterCooldown_ne_cooldown (uid : Nat) (uname : String) (now : Int)
    (links : List String) (f : Fetch) (db : DB) (rem : Int) :
    (submitAfterCooldown uid uname now links f db).2 ≠ SubmitResult.cooldown rem := by
  unfold submitAfterCooldown
  by_cases he : (allowedHandles (afterCooldownState db uid now) uid).isEmpty = true
  · rw [if_pos he]; intro h; exact SubmitResult.noConfusion h
  · rw [if_neg he]; intro h; exact SubmitResult.noConfusion h

/-! ### Claims C3 and C6 -/

/-- Claim C3: with a recorded last-submission time, a submission arriving
strictly less than 60 seconds later is denied, reporting exactly the
window minus the elapsed time, and leaves the state unchanged; once 60
seconds have elapsed the cooldown gate no longer denies the attempt. -/
theorem submit_cooldown_gate (uid : Nat) (uname : String) (now last : Int)
    (links : List String) (f : Fetch) (db : DB)
    (h1 : links.isEmpty = false) (h2 : ¬ links.length > 5)
    (hlast : lookupCooldown db uid = some last) :
    (now - last < 60 →
      submit uid uname now links f db
        = (db, SubmitResult.cooldown (60 - (now - last))))
    ∧ (60 ≤ now - last →
      ∀ rem, (submit uid uname now links f db).2 ≠ SubmitResult.cooldown rem) := by
  constructor
  · intro helapsed
    unfold submit
    rw [if_neg (by simp [h1]), if_neg h2, hlast]
    show (if (60 : Int) - (now - last) > 0 then
        (db, SubmitResult.cooldown (60 - (now - last)))
      else submitAfterCooldown uid uname now links f db)
      = (db, SubmitResult.cooldown (60 - (now - last)))
    rw [if_pos (by omega)]
  · intro helapsed rem
    unfold submit
    rw [if_neg (by simp [h1]), if_neg h2, hlast]
    show (if (60 : Int) - (now - last) > 0 then
        (db, SubmitResult.cooldown (60 - (now - last)))
      else submitAfterCooldown uid uname now links f db).2
      ≠ SubmitResult.cooldown rem
    rw [if_neg (by omega)]
    exact submitAfterCooldown_ne_cooldown uid uname now links f db rem

/-- Witness for C3: a user who submitted at time 0 is denied at time 10
with 50 seconds remaining, and is no longer denied at time 60. -/
theorem submit_cooldown_gate_witness :
    submit 1 (("")) 10 [(("u"))] (fun _ => none)
        ⟨[], [], [], [], [(1, 0)], [], 1⟩
      = (⟨[], [], [], [], [(1, 0)], [], 1⟩, SubmitResult.cooldown 50)
    ∧ ∀ rem, (submit 1 (("")) 60 [(("u"))] (fun _ => none)
        ⟨[], [], [], [], [(1, 0)], [], 1⟩).2 ≠ SubmitResult.cooldown rem := by
  constructor
  · exact ((submit_cooldown_gate 1 ("") 10 0 [("u")] (fun _ => none)
      ⟨[], [], [], [], [(1, 0)], [], 1⟩ (by decide) (by decide) (by decide)).1
      (by decide))
  · exact ((submit_cooldown_gate 1 ("") 60 0 [("u")] (fun _ => none)
      ⟨[], [], [], [], [(1, 0)], [], 1⟩ (by decide) (by decide) (by decide)).2
      (by decide))

/-- Claim C6: when a submission attempt passes the cooldown gate, the
cooldown record is written to the attempt time before any downstream
validation, so whatever happens afterwards (no owned account, invalid
URLs, owner mismatch, or fetch errors on every item) the resulting state
has the user's last-submit record equal to the attempt time. -/
theorem submit_consumes_cooldown (uid : Nat) (uname : String) (now : Int)
    (links : List String) (f : Fetch) (db : DB)
    (h1 : links.isEmpty = false) (h2 : ¬ links.length > 5)
    (h3 : cooldownOk db uid now = true) :
    lookupCooldown (submit uid uname now links f db).1 uid = some now := by
  unfold submit
  rw [if_neg (by simp [h1]), if_neg h2]
  cases hl : lookupCooldown db uid with
  | none => exact submitAfterCooldown_cooldowns uid uname now links f db
  | some last =>
    have hle : (60 : Int) - (now - last) ≤ 0 := by
      unfold cooldownOk at h3
      rw [hl] at h3
      exact of_decide_eq_true h3
    show lookupCooldown (if (60 : Int) - (now - last) > 0 then
        (db, SubmitResult.cooldown (60 - (now - last)))
      else submitAfterCooldown uid uname now links f db).1 uid = some now
    rw [if_neg (by omega)]
    exact submitAfterCooldown_cooldowns uid uname now links f db

/-- Witness for C6: a fresh user submits one unparsable link; the batch
fails entirely, yet the cooldown record now holds the attempt time. -/
theorem submit_consumes_cooldown_witness :
    lookupCooldown (submit 1 (("")) 100 [(("u"))] (fun _ => none)
        ⟨[], [], [], [], [], [], 1⟩).1 1 = some 100 :=
  submit_consumes_cooldown 1 ("") 100 [("u")] (fun _ => none)
    ⟨[], [], [], [], [], [], 1⟩ (by decide) (by decide) (by decide)

/-! ### Claim C1: duplicate submission -/

/-- Predicate for the reels rows of the tracked pair (uid, sc). -/
def isPair (uid : Nat) (sc : String) (r : Reel) : Bool :=
  r.userId == uid && r.shortcode == sc

theorem processLink_pair_count (uid : Nat) (uname : String) (now : Int)
    (f : Fetch) (allowed : List String) (db : DB) (l : String) (sc : String)
    (h : db.reels.any (isPair uid sc) = true) :
    (processLink uid uname now f allowed db l).1.reels.countP (isPair uid sc)
      = db.reels.countP (isPair uid sc)
    ∧ (processLink uid uname now f allowed db l).1.reels.any (isPair uid sc) = true := by
  cases hx : extract_shortcode l with
  | none => exact ⟨by simp [processLink, hx], by simp [processLink, hx, h]⟩
  | some sc2 =>
    cases hf : f sc2 with
    | none => exact ⟨by simp [processLink, hx, hf], by simp [processLink, hx, hf, h]⟩
    | some ov =>
      obtain ⟨owner, v0⟩ := ov
      by_cases hm : lowerStr owner ∈ allowed
      · by_cases ha : db.reels.any (fun r => r.userId == uid && r.shortcode == sc2) = true
        · exact ⟨by simp [processLink, hx, hf, hm, ha],
            by simp [processLink, hx, hf, hm, ha, h]⟩
        · have hsc2 : ¬ sc2 = sc := by
            intro he
            apply ha
            rw [he]
            exact h
          have hrow : isPair uid sc ⟨db.nextReelId, uid, sc2, owner⟩ = false := by
            simp [isPair, hsc2]
          constructor
          · rw [show (processLink uid uname now f allowed db l).1.reels
                = db.reels ++ [⟨db.nextReelId, uid, sc2, owner⟩] from by
              simp [processLink, hx, hf, hm, ha]]
            rw [List.countP_append]
            simp [List.countP_cons, hrow]
          · rw [show (processLink uid uname now f allowed db l).1.reels
                = db.reels ++ [⟨db.nextReelId, uid, sc2, owner⟩] from by
              simp [processLink, hx, hf, hm, ha]]
            rw [List.any_append, h, Bool.true_or]
      · exact ⟨by simp [processLink, hx, hf, hm], by simp [processLink, hx, hf, hm, h]⟩

theorem runBatch_pair_count (uid : Nat) (uname : String) (now : Int)
    (f : Fetch) (allowed : List String) (db : DB) (links : List String)
    (sc : String) (h : db.reels.any (isPair uid sc) = true) :
    (runBatch uid uname now f allowed db links).1.reels.countP (isPair uid sc)
      = db.reels.countP (isPair uid sc)
    ∧ (runBatch uid uname now f allowed db links).1.reels.any (isPair uid sc) = true := by
  induction links generalizing db with
  | nil => exact ⟨rfl, h⟩
  | cons l ls ih =>
    unfold runBatch
    cases hp : processLink uid uname now f allowed db l with
    | mk db1 res =>
      have hcnt := processLink_pair_count uid uname now f allowed db l sc h
      rw [hp] at hcnt
      cases res with
      | none =>
        refine ⟨?_, (ih db1 hcnt.2).2⟩
        show (runBatch uid uname now f allowed db1 ls).1.reels.countP (isPair uid sc) = _
        rw [(ih db1 hcnt.2).1, hcnt.1]
      | some fail =>
        refine ⟨?_, (ih db1 hcnt.2).2⟩
        show (runBatch uid uname now f allowed db1 ls).1.reels.countP (isPair uid sc) = _
        rw [(ih db1 hcnt.2).1, hcnt.1]

/-- Claim C1: once (uid, sc) is tracked, no submit call can create a
second reels row for that pair (the uniqueness guard fires instead), and
a resubmission of the same link that reaches the insert (cooldown passed,
an account assigned, fetch succeeded with an authorized owner) reports
the already-submitted conflict and leaves the users, reels, views and
audit tables unchanged; only the cooldown row moves to the attempt
time. -/
theorem submit_already_tracked (uid : Nat) (uname sc owner : String)
    (now : Int) (v0 : Nat) (link : String) (f : Fetch) (db : DB)
    (hsc : extract_shortcode link = some sc)
    (htr : db.reels.any (isPair uid sc) = true)
    (hcd : cooldownOk db uid now = true)
    (hacc : (allowedHandles db uid).isEmpty = false)
    (hf : f sc = some (owner, v0))
    (hown : lowerStr owner ∈ allowedHandles db uid) :
    (∀ links : List String,
      (submit uid uname now links f db).1.reels.countP (isPair uid sc)
        = db.reels.countP (isPair uid sc))
    ∧ submit uid uname now [link] f db
        = (afterCooldownState db uid now,
           SubmitResult.batch 0 [(link, "already submitted")]) := by
  have hAllowedEq : allowedHandles (afterCooldownState db uid now) uid
      = allowedHandles db uid := rfl
  have hReelsEq : (afterCooldownState db uid now).reels = db.reels := rfl
  have hsub : ∀ links : List String,
      submit uid uname now links f db
        = if links.isEmpty = true then (db, SubmitResult.usage)
          else if links.length > 5 then (db, SubmitResult.tooMany)
          else submitAfterCooldown uid uname now links f db := by
    intro links
    unfold submit
    by_cases h1 : links.isEmpty = true
    · rw [if_pos h1, if_pos h1]
    · rw [if_neg h1, if_neg h1]
      by_cases h2 : links.length > 5
      · rw [if_pos h2, if_pos h2]
      · rw [if_neg h2, if_neg h2]
        cases hl : lookupCooldown db uid with
        | none => rfl
        | some last =>
          have hle : (60 : Int) - (now - last) ≤ 0 := by
            unfold cooldownOk at hcd
            rw [hl] at hcd
            exact of_decide_eq_true hcd
          show (if (60 : Int) - (now - last) > 0 then
              (db, SubmitResult.cooldown (60 - (now - last)))
            else submitAfterCooldown uid uname now links f db) = _
          rw [if_neg (by omega)]
  constructor
  · intro links
    rw [hsub links]
    by_cases h1 : links.isEmpty = true
    · rw [if_pos h1]
    · rw [if_neg h1]
      by_cases h2 : links.length > 5
      · rw [if_pos h2]
      · rw [if_neg h2]
        unfold submitAfterCooldown
        rw [hAllowedEq, if_neg (by rw [hacc]; exact Bool.false_ne_true)]
        show (runBatch uid uname now f (allowedHandles db uid)
            (afterCooldownState db uid now) links).1.reels.countP (isPair uid sc) = _
        rw [(runBatch_pair_count uid uname now f (allowedHandles db uid)
          (afterCooldownState db uid now) links sc (by rw [hReelsEq]; exact htr)).1]
        rw [hReelsEq]
  · rw [hsub [link]]
    rw [if_neg (by simp), if_neg (by simp)]
    unfold submitAfterCooldown
    rw [hAllowedEq, if_neg (by rw [hacc]; exact Bool.false_ne_true)]
    have hstep : processLink uid uname now f (allowedHandles db uid)
        (afterCooldownState db uid now) link
        = (afterCooldownState db uid now, some (link, "already submitted")) := by
      simp only [processLink, hsc, hf]
      rw [if_pos hown]
      rw [if_pos (by rw [hReelsEq]; exact htr)]
    show ((runBatch uid uname now f (allowedHandles db uid)
        (afterCooldownState db uid now) [link]).1,
      SubmitResult.batch (runBatch uid uname now f (allowedHandles db uid)
        (afterCooldownState db uid now) [link]).2.1
        (runBatch uid uname now f (allowedHandles db uid)
          (afterCooldownState db uid now) [link]).2.2) = _
    unfold runBatch
    rw [hstep]
    rfl

/-- Concrete database for the C1 witness: user 1 owns handle x and
already tracks shortcode abc. -/
def dbC1 : DB :=
  ⟨[(1, ("alice"))], [(1, ("@x"))], [⟨7, 1, ("abc"), ("x")⟩],
    [⟨7, 0, 5⟩], [], [⟨1, ("submitted"), ("abc"), 0⟩], 8⟩

/-- Fetcher for the C1 witness: shortcode abc resolves to owner X with 9
views. -/
def fC1 : Fetch := fun sc => if sc == ("abc") then some (("X"), 9) else none

/-- Link used in the C1 witness. -/
def linkC1 : String := "https://www.instagram.com/reel/abc"

/-- Witness for C1: resubmitting the already-tracked link keeps the
(1, abc) row count at one and reports the already-submitted conflict
while only the cooldown row changes. -/
theorem submit_already_tracked_witness :
    (submit 1 (("alice")) 100 [linkC1] fC1 dbC1).1.reels.countP (isPair 1 ("abc"))
      = dbC1.reels.countP (isPair 1 ("abc"))
    ∧ submit 1 (("alice")) 100 [linkC1] fC1 dbC1
        = (afterCooldownState dbC1 1 100,
           SubmitResult.batch 0 [(linkC1, "already submitted")]) := by
  have h := submit_already_tracked 1 ("alice") ("abc") ("X") 100 9 linkC1 fC1 dbC1
    (by decide) (by decide) (by decide) (by decide) (by decide) (by decide)
  exact ⟨h.1 [linkC1], h.2⟩


/-! ## Removal

Model of the remove command (reel_tracker_bot.py:348-370): parse the URL,
look the (user_id, shortcode) reel up, and if present delete its views
rows, delete the reel row by id, and append a removed audit entry; an
unparsable URL or an untracked pair changes nothing. -/

/-- Result of one remove command. -/
inductive RemoveResult where
  | invalidUrl
  | notFound
  | removed (sc : String)
deriving DecidableEq

/-- State after the three statements of a successful removal: DELETE the
views rows of the reel id, DELETE the reel row by id, INSERT the removed
audit entry (reel_tracker_bot.py:363-368). -/
def removedState (db : DB) (uid : Nat) (sc : String) (now : Int) (r : Reel) : DB :=
  { db with
      views := db.views.filter (fun v => !(v.reelId == r.id))
      reels := db.reels.filter (fun q => !(q.id == r.id))
      audit := db.audit ++ [AuditRow.mk uid ("removed") sc now] }

/-- Model of the remove command. -/
def remove (uid : Nat) (arg : String) (now : Int) (db : DB) : DB × RemoveResult :=
  match extract_shortcode arg with
  | none => (db, RemoveResult.invalidUrl)
  | some sc =>
    match db.reels.find? (fun r => r.userId == uid && r.shortcode == sc) with
    | none => (db, RemoveResult.notFound)
    | some r => (removedState db uid sc now r, RemoveResult.removed sc)

/-- The schema invariant UNIQUE(user_id, shortcode) on the reels table. -/
def ReelsUnique (db : DB) : Prop :=
  db.reels.Pairwise (fun a b => ¬(a.userId = b.userId ∧ a.shortcode = b.shortcode))

theorem pairwise_pair_unique (l : List Reel)
    (hp : l.Pairwise (fun a b => ¬(a.userId = b.userId ∧ a.shortcode = b.shortcode)))
    (r q : Reel) (hr : r ∈ l) (hq : q ∈ l)
    (hpair : q.userId = r.userId ∧ q.shortcode = r.shortcode) : q = r := by
  induction l with
  | nil => cases hr
  | cons a as ih =>
    rw [List.pairwise_cons] at hp
    cases hr with
    | head =>
      cases hq with
      | head => rfl
      | tail _ hq2 => exact absurd ⟨hpair.1.symm, hpair.2.symm⟩ (hp.1 q hq2)
    | tail _ hr2 =>
      cases hq with
      | head => exact absurd hpair (hp.1 r hr2)
      | tail _ hq2 => exact ih hp.2 hr2 hq2

/-! ### Claim C4 -/

/-- Claim C4: removing a tracked (user, shortcode) pair deletes every
snapshot of that reel (no orphans), deletes the reel row, and appends a
removed audit entry; a second removal of the same pair, or a removal of a
never-tracked pair, returns the not-found result and changes nothing. -/
theorem remove_spec (uid : Nat) (arg : String) (now now2 : Int) (db : DB)
    (sc : String) (hwf : ReelsUnique db)
    (hsc : extract_shortcode arg = some sc) :
    (∀ r, db.reels.find? (fun q => q.userId == uid && q.shortcode == sc) = some r →
      remove uid arg now db = (removedState db uid sc now r, RemoveResult.removed sc)
      ∧ (∀ v ∈ (removedState db uid sc now r).views, ¬ v.reelId = r.id)
      ∧ remove uid arg now2 (removedState db uid sc now r)
          = (removedState db uid sc now r, RemoveResult.notFound))
    ∧ (db.reels.find? (fun q => q.userId == uid && q.shortcode == sc) = none →
      remove uid arg now db = (db, RemoveResult.notFound)) := by
  constructor
  · intro r hfind
    have hmem : r ∈ db.reels := List.mem_of_find?_eq_some hfind
    have hpr := List.find?_some hfind
    have hprU : r.userId = uid := by
      have h2 : (r.userId == uid && r.shortcode == sc) = true := hpr
      have h3 := (Bool.and_eq_true _ _).mp h2
      exact eq_of_beq h3.1
    have hprS : r.shortcode = sc := by
      have h2 : (r.userId == uid && r.shortcode == sc) = true := hpr
      have h3 := (Bool.and_eq_true _ _).mp h2
      exact eq_of_beq h3.2
    refine ⟨by simp [remove, hsc, hfind], ?_, ?_⟩
    · intro v hv
      have hv2 : v ∈ db.views.filter (fun v => !(v.reelId == r.id)) := hv
      have hkeep := List.of_mem_filter hv2
      simpa using hkeep
    · have hnone : (removedState db uid sc now r).reels.find?
          (fun q => q.userId == uid && q.shortcode == sc) = none := by
        show (db.reels.filter (fun q => !(q.id == r.id))).find?
          (fun q => q.userId == uid && q.shortcode == sc) = none
        rw [List.find?_eq_none]
        intro q hq hpq
        have hpq2 : (q.userId == uid && q.shortcode == sc) = true := hpq
        have hq2 : q ∈ db.reels := List.mem_of_mem_filter hq
        have hqid := List.of_mem_filter hq
        have h3 := (Bool.and_eq_true _ _).mp hpq2
        have hqU : q.userId = uid := eq_of_beq h3.1
        have hqS : q.shortcode = sc := eq_of_beq h3.2
        have hqr : q = r := pairwise_pair_unique db.reels hwf r q hmem hq2
          ⟨hqU.trans hprU.symm, hqS.trans hprS.symm⟩
        rw [hqr] at hqid
        simp at hqid
      simp [remove, hsc, hnone]
  · intro hnone
    simp [remove, hsc, hnone]

/-- Reel row used by the C4 witness. -/
def reelC4 : Reel := ⟨7, 1, ("abc"), ("x")⟩

/-- Witness for C4: removing the tracked reel deletes its snapshot rows
and the reel row and appends the audit entry; removing it again returns
not-found and changes nothing. -/
theorem remove_spec_witness :
    (remove 1 linkC1 10 dbC1
       = (removedState dbC1 1 ("abc") 10 reelC4, RemoveResult.removed ("abc")))
    ∧ (∀ v ∈ (removedState dbC1 1 ("abc") 10 reelC4).views, ¬ v.reelId = reelC4.id)
    ∧ remove 1 linkC1 20 (removedState dbC1 1 ("abc") 10 reelC4)
        = (removedState dbC1 1 ("abc") 10 reelC4, RemoveResult.notFound) := by
  have h := (remove_spec 1 linkC1 10 20 dbC1 ("abc")
    (by unfold ReelsUnique; decide) (by decide)).1 reelC4 (by decide)
  exact h

/-! ### Claim C5 -/

/-- Claim C5 counterexample: user 1 owns a single tracked reel; after a
successful remove the user owns zero reels, yet the users row for user 1
is still present — the code never garbage-collects the users table. -/
theorem remove_no_user_gc_counterexample :
    (remove 1 linkC1 10 dbC1).2 = RemoveResult.removed ("abc")
    ∧ (remove 1 linkC1 10 dbC1).1.reels.filter (fun r => r.userId == 1) = []
    ∧ (1, ("alice")) ∈ (remove 1 linkC1 10 dbC1).1.users := by decide

/-- Claim C5 amended: remove never deletes the User row; the users table
is unchanged by every remove call, even when the user thereby owns zero
tracked reels. -/
theorem remove_users_unchanged (uid : Nat) (arg : String) (now : Int) (db : DB) :
    (remove uid arg now db).1.users = db.users := by
  cases hx : extract_shortcode arg with
  | none => simp [remove, hx]
  | some sc =>
    cases hfind : db.reels.find? (fun r => r.userId == uid && r.shortcode == sc) with
    | none => simp [remove, hx, hfind]
    | some r => simp [remove, hx, hfind, removedState]

/-! ## Per-user stats

Model of the stats command (reel_tracker_bot.py:320-346): collect the
reels of the user; for each, the latest views row is the one selected by
ORDER BY timestamp DESC LIMIT 1 (ties broken towards the later
insertion), defaulting to 0 when none exists; the totals are accumulated
in a loop and the per-reel list is sorted by count descending. -/

/-- One step of the maximal-timestamp selection: keep the later row on a
tie, so later insertions win as in the ORDER BY ... DESC LIMIT 1 read
with the tie-break of the spec. -/
def latestStep (acc : Option ViewRow) (v : ViewRow) : Option ViewRow :=
  match acc with
  | none => some v
  | some b => if b.timestamp ≤ v.timestamp then some v else some b

/-- Selection of the row with the maximal timestamp, later insertions
winning ties, as a left fold. -/
def latestRow (vs : List ViewRow) : Option ViewRow :=
  vs.foldl latestStep none

theorem latestStep_none (x : ViewRow) : latestStep none x = some x := rfl

theorem latestStep_some (b x : ViewRow) :
    latestStep (some b) x
      = if b.timestamp ≤ x.timestamp then some x else some b := rfl

/-- Latest view count of a reel: the count of the maximal-timestamp views
row of that reel, or 0 when the reel has no snapshot
(reel_tracker_bot.py:332-335). -/
def latestCount (vs : List ViewRow) (rid : Nat) : Nat :=
  match latestRow (vs.filter (fun v => v.reelId == rid)) with
  | none => 0
  | some v => v.count

/-- The accumulation loop of the stats command: total views and the
per-reel (owner name, latest count) list, in table order
(reel_tracker_bot.py:330-336). -/
def statsLoop (vs : List ViewRow) : List Reel → Nat × List (String × Nat)
  | [] => (0, [])
  | r :: rs =>
    let rest := statsLoop vs rs
    (latestCount vs r.id + rest.1, (r.ownerName, latestCount vs r.id) :: rest.2)

/-- Result of one stats command. -/
inductive StatsResult where
  | empty
  | report (videoCount : Nat) (totalViews : Nat) (details : List (String × Nat))
deriving DecidableEq

/-- Model of the stats command: no tracked reels reports the empty
message; otherwise the video count, the accumulated total and the
per-reel list sorted by count descending (a stable descending sort, as
list.sort with reverse=True). -/
def stats (uid : Nat) (db : DB) : StatsResult :=
  if (db.reels.filter (fun r => r.userId == uid)).isEmpty then StatsResult.empty
  else
    StatsResult.report (db.reels.filter (fun r => r.userId == uid)).length
      (statsLoop db.views (db.reels.filter (fun r => r.userId == uid))).1
      ((statsLoop db.views (db.reels.filter (fun r => r.userId == uid))).2.mergeSort
        (fun a b => decide (b.2 ≤ a.2)))

theorem statsLoop_eq (vs : List ViewRow) (rs : List Reel) :
    statsLoop vs rs = ((rs.map (fun r => latestCount vs r.id)).sum,
      rs.map (fun r => (r.ownerName, latestCount vs r.id))) := by
  induction rs with
  | nil => rfl
  | cons r rs ih => simp [statsLoop, ih]

theorem latestRow_foldl (vs : List ViewRow) :
    ∀ acc v, vs.foldl latestStep acc = some v →
      (v ∈ vs ∨ acc = some v)
      ∧ (∀ w ∈ vs, w.timestamp ≤ v.timestamp)
      ∧ (∀ b, acc = some b → b.timestamp ≤ v.timestamp) := by
  induction vs with
  | nil =>
    intro acc v h
    have hav : acc = some v := h
    refine ⟨Or.inr hav, ?_, ?_⟩
    · intro w hw
      cases hw
    · intro b hb
      rw [hb] at hav
      rw [Option.some_inj.mp hav]
  | cons x xs ih =>
    intro acc v h
    rw [List.foldl_cons] at h
    cases acc with
    | none =>
      rw [latestStep_none] at h
      have hstep := ih (some x) v h
      have hxv : x.timestamp ≤ v.timestamp := hstep.2.2 x rfl
      refine ⟨?_, ?_, ?_⟩
      · cases hstep.1 with
        | inl hin => exact Or.inl (List.mem_cons_of_mem x hin)
        | inr heq => exact Or.inl (by rw [← Option.some_inj.mp heq]; exact List.mem_cons_self x xs)
      · intro w hw
        cases hw with
        | head => exact hxv
        | tail _ hw2 => exact hstep.2.1 w hw2
      · intro b hb
        exact Option.noConfusion hb
    | some b =>
      rw [latestStep_some] at h
      by_cases hle : b.timestamp ≤ x.timestamp
      · rw [if_pos hle] at h
        have hstep := ih (some x) v h
        have hxv : x.timestamp ≤ v.timestamp := hstep.2.2 x rfl
        refine ⟨?_, ?_, ?_⟩
        · cases hstep.1 with
          | inl hin => exact Or.inl (List.mem_cons_of_mem x hin)
          | inr heq => exact Or.inl (by rw [← Option.some_inj.mp heq]; exact List.mem_cons_self x xs)
        · intro w hw
          cases hw with
          | head => exact hxv
          | tail _ hw2 => exact hstep.2.1 w hw2
        · intro c hc
          have : c = b := (Option.some_inj.mp hc).symm
          rw [this]
          exact le_trans hle hxv
      · rw [if_neg hle] at h
        have hstep := ih (some b) v h
        have hbv : b.timestamp ≤ v.timestamp := hstep.2.2 b rfl
        refine ⟨?_, ?_, ?_⟩
        · cases hstep.1 with
          | inl hin => exact Or.inl (List.mem_cons_of_mem x hin)
          | inr heq => exact Or.inr heq
        · intro w hw
          cases hw with
          | head => exact le_trans (by omega) hbv
          | tail _ hw2 => exact hstep.2.1 w hw2
        · intro c hc
          have : c = b := (Option.some_inj.mp hc).symm
          rw [this]
          exact hbv

theorem latestRow_spec (vs : List ViewRow) (v : ViewRow)
    (h : latestRow vs = some v) :
    v ∈ vs ∧ ∀ w ∈ vs, w.timestamp ≤ v.timestamp := by
  have hall := latestRow_foldl vs none v h
  refine ⟨?_, hall.2.1⟩
  cases hall.1 with
  | inl hin => exact hin
  | inr heq => exact Option.noConfusion heq

/-! ### Claim C8 -/

/-- Claim C8: the stats projection reports the video count equal to the
number of the user's reels, the total equal to the sum over those reels
of the latest snapshot count (0 when a reel has no snapshot), and a
per-reel list that is a permutation of the (owner, latest count) rows
sorted by count descending; and the latest row is the one of maximal
timestamp among the reel's snapshots. -/
theorem stats_spec (uid : Nat) (db : DB) :
    (∀ vc tv details, stats uid db = StatsResult.report vc tv details →
        vc = (db.reels.filter (fun r => r.userId == uid)).length
        ∧ tv = ((db.reels.filter (fun r => r.userId == uid)).map
            (fun r => latestCount db.views r.id)).sum
        ∧ details.Perm ((db.reels.filter (fun r => r.userId == uid)).map
            (fun r => (r.ownerName, latestCount db.views r.id)))
        ∧ details.Pairwise (fun a b => b.2 ≤ a.2))
    ∧ (∀ rid : Nat, db.views.filter (fun v => v.reelId == rid) = [] →
        latestCount db.views rid = 0)
    ∧ (∀ rid v, latestRow (db.views.filter (fun v => v.reelId == rid)) = some v →
        v ∈ db.views.filter (fun v => v.reelId == rid)
        ∧ ∀ w ∈ db.views.filter (fun v => v.reelId == rid),
            w.timestamp ≤ v.timestamp) := by
  refine ⟨?_, ?_, ?_⟩
  · intro vc tv details heq
    by_cases hfe : (db.reels.filter (fun r => r.userId == uid)).isEmpty = true
    · rw [show stats uid db = StatsResult.empty from by rw [stats, if_pos hfe]] at heq
      exact StatsResult.noConfusion heq
    · rw [stats, if_neg hfe] at heq
      obtain ⟨h1, h2, h3⟩ : vc = (db.reels.filter (fun r => r.userId == uid)).length
          ∧ tv = (statsLoop db.views (db.reels.filter (fun r => r.userId == uid))).1
          ∧ details = (statsLoop db.views
              (db.reels.filter (fun r => r.userId == uid))).2.mergeSort
                (fun a b => decide (b.2 ≤ a.2)) := by
        refine ⟨?_, ?_, ?_⟩ <;> injection heq <;> simp_all
      refine ⟨h1, ?_, ?_, ?_⟩
      · rw [h2, statsLoop_eq]
      · rw [h3]
        have hperm := List.mergeSort_perm
          (statsLoop db.views (db.reels.filter (fun r => r.userId == uid))).2
          (fun a b => decide (b.2 ≤ a.2))
        have h4 : (statsLoop db.views (db.reels.filter (fun r => r.userId == uid))).2
            = (db.reels.filter (fun r => r.userId == uid)).map
                (fun r => (r.ownerName, latestCount db.views r.id)) := by
          rw [statsLoop_eq]
        exact h4 ▸ hperm
      · rw [h3]
        have hsorted := @List.sorted_mergeSort (String × Nat)
          (fun a b => decide (b.2 ≤ a.2))
          (fun a b c hab hbc => by
            simp only [decide_eq_true_eq] at hab hbc ⊢
            omega)
          (fun a b => by
            simp only [Bool.or_eq_true, decide_eq_true_eq]
            omega)
          (statsLoop db.views (db.reels.filter (fun r => r.userId == uid))).2
        exact hsorted.imp (fun h => of_decide_eq_true h)
  · intro rid hnil
    unfold latestCount
    rw [hnil]
    rfl
  · intro rid v h
    exact latestRow_spec _ v h

/-- Database for the C8 witness: user 1 tracks two reels; reel 7 has two
snapshots (latest count 9), reel 9 has none. -/
def dbC8 : DB :=
  ⟨[(1, ("alice"))], [(1, ("@x"))],
    [⟨7, 1, ("abc"), ("x")⟩, ⟨9, 1, ("def"), ("x")⟩],
    [⟨7, 0, 5⟩, ⟨7, 4, 9⟩], [], [], 10⟩

unseal List.merge List.mergeSort in
theorem statsC8_eval :
    stats 1 dbC8 = StatsResult.report 2 9 ([(("x"), 9), (("x"), 0)]) := by decide

/-- Witness for C8: the report for user 1 on dbC8 has video count 2,
total 9, and the per-reel list sorted descending. -/
theorem stats_spec_witness :
    2 = (dbC8.reels.filter (fun r => r.userId == 1)).length
    ∧ 9 = ((dbC8.reels.filter (fun r => r.userId == 1)).map
        (fun r => latestCount dbC8.views r.id)).sum
    ∧ ([(("x"), 9), (("x"), 0)] : List (String × Nat)).Perm
        ((dbC8.reels.filter (fun r => r.userId == 1)).map
          (fun r => (r.ownerName, latestCount dbC8.views r.id)))
    ∧ ([(("x"), 9), (("x"), 0)] : List (String × Nat)).Pairwise
        (fun a b => b.2 ≤ a.2) :=
  (stats_spec 1 dbC8).1 2 9 ([(("x"), 9), (("x"), 0)]) statsC8_eval

/-! ## Background refresh cycle

Model of track_all_views (reel_tracker_bot.py:159-176): read the (id,
shortcode) rows of the reels table, then for each reel try the fetch up
to 3 times; a success inserts one views row and breaks out of the retry
loop; a failure sleeps 2 seconds and retries; after 3 failures the reel
is skipped and the loop moves on.  The fetch oracle maps a shortcode and
an attempt index to a view count or a failure; the observable actions of
a cycle are collected as an event trace. -/

/-- Observable actions of the refresh cycle. -/
inductive Ev where
  | fetchAttempt (code : String)
  | sleep (secs : Nat)
  | record (rid : Nat) (count : Nat)
deriving DecidableEq

/-- Fetch oracle of the cycle: shortcode and attempt index to view count
or failure. -/
def FetchTry : Type := String → Nat → Option Nat

/-- The retry loop over the remaining attempt indices: stop at the first
success; sleep 2s after each failure (including the last one), as the
except branch does. -/
def attemptLoop (f : FetchTry) (code : String) : List Nat → Option Nat × List Ev
  | [] => (none, [])
  | i :: rest =>
    match f code i with
    | some v => (some v, [Ev.fetchAttempt code])
    | none =>
      ((attemptLoop f code rest).1,
        Ev.fetchAttempt code :: Ev.sleep 2 :: (attemptLoop f code rest).2)

/-- The three attempts of range(3). -/
def runAttempts3 (f : FetchTry) (code : String) : Option Nat × List Ev :=
  attemptLoop f code [0, 1, 2]

/-- Value of the first successful attempt among the three, if any. -/
def firstSuccess (f : FetchTry) (code : String) : Option Nat :=
  match f code 0 with
  | some v => some v
  | none =>
    match f code 1 with
    | some v => some v
    | none => f code 2

/-- One reel of the cycle: on first fetch success insert one views row
and record it; on exhausted attempts leave the state untouched. -/
def trackReel (f : FetchTry) (ts : Int) (db : DB) (r : Reel) : DB × List Ev :=
  match runAttempts3 f r.shortcode with
  | (some v, evs) =>
    ({ db with views := db.views ++ [ViewRow.mk r.id ts v] },
      evs ++ [Ev.record r.id v])
  | (none, evs) => (db, evs)

/-- Event trace of one reel, independent of the database state. -/
def reelTrace (f : FetchTry) (r : Reel) : List Ev :=
  match runAttempts3 f r.shortcode with
  | (some v, evs) => evs ++ [Ev.record r.id v]
  | (none, evs) => evs

/-- Sequential processing of the listed reels. -/
def trackList (f : FetchTry) (ts : Int) : List Reel → DB → DB × List Ev
  | [], db => (db, [])
  | r :: rs, db =>
    ((trackList f ts rs (trackReel f ts db r).1).1,
      (trackReel f ts db r).2 ++ (trackList f ts rs (trackReel f ts db r).1).2)

/-- Model of one refresh cycle of track_all_views: visit every reels row
in table order. -/
def track_all_views (f : FetchTry) (ts : Int) (db : DB) : DB × List Ev :=
  trackList f ts db.reels db

/-- Test for a fetch-attempt event. -/
def isAttempt : Ev → Bool
  | Ev.fetchAttempt _ => true
  | _ => false

/-- Test for a snapshot-record event. -/
def isRecord : Ev → Bool
  | Ev.record _ _ => true
  | _ => false

/-- Test for a 2-second sleep event. -/
def isSleep2 : Ev → Bool
  | Ev.sleep n => n == 2
  | _ => false

theorem runAttempts3_fst (f : FetchTry) (code : String) :
    (runAttempts3 f code).1 = firstSuccess f code := by
  cases h0 : f code 0 <;> cases h1 : f code 1 <;> cases h2 : f code 2 <;>
    simp [runAttempts3, attemptLoop, firstSuccess, h0, h1, h2]

theorem reelTrace_spec (f : FetchTry) (r : Reel) :
    ((reelTrace f r).countP isAttempt ≤ 3 ∧ 1 ≤ (reelTrace f r).countP isAttempt)
    ∧ (firstSuccess f r.shortcode = none →
        (reelTrace f r).countP isRecord = 0
        ∧ (reelTrace f r).countP isAttempt = 3
        ∧ (reelTrace f r).countP isSleep2 = 3)
    ∧ (∀ v, firstSuccess f r.shortcode = some v →
        (reelTrace f r).countP isRecord = 1
        ∧ (reelTrace f r).countP isSleep2 + 1 = (reelTrace f r).countP isAttempt) := by
  cases h0 : f r.shortcode 0 <;> cases h1 : f r.shortcode 1 <;>
    cases h2 : f r.shortcode 2 <;>
    simp [reelTrace, runAttempts3, attemptLoop, firstSuccess, h0, h1, h2,
      isAttempt, isRecord, isSleep2, List.countP_cons]

theorem trackReel_eq (f : FetchTry) (ts : Int) (db : DB) (r : Reel) :
    trackReel f ts db r
      = ({ db with views := db.views
            ++ ((firstSuccess f r.shortcode).map (fun v => ViewRow.mk r.id ts v)).toList },
         reelTrace f r) := by
  have hfs := runAttempts3_fst f r.shortcode
  cases hr : runAttempts3 f r.shortcode with
  | mk o evs =>
    rw [hr] at hfs
    cases o with
    | some v => simp [trackReel, reelTrace, hr, ← hfs]
    | none => simp [trackReel, reelTrace, hr, ← hfs]

theorem trackList_eq (f : FetchTry) (ts : Int) (rs : List Reel) :
    ∀ db : DB, (trackList f ts rs db).1
      = { db with views := db.views
                    ++ rs.filterMap (fun r =>
                      (firstSuccess f r.shortcode).map (fun v => ViewRow.mk r.id ts v)) }
    ∧ (trackList f ts rs db).2 = rs.flatMap (fun r => reelTrace f r) := by
  induction rs with
  | nil =>
    intro db
    constructor
    · simp [trackList]
    · simp [trackList]
  | cons r rs ih =>
    intro db
    constructor
    · show (trackList f ts rs (trackReel f ts db r).1).1 = _
      rw [trackReel_eq, (ih _).1]
      cases hfs : firstSuccess f r.shortcode with
      | none =>
        have hg : (firstSuccess f r.shortcode).map (fun v => ViewRow.mk r.id ts v)
            = none := by
          rw [hfs]
          rfl
        simp [List.filterMap_cons_none hg, hfs]
      | some v =>
        have hg : (firstSuccess f r.shortcode).map (fun v => ViewRow.mk r.id ts v)
            = some (ViewRow.mk r.id ts v) := by
          rw [hfs]
          rfl
        simp [List.filterMap_cons_some hg, hfs, List.append_assoc]
    · show (trackReel f ts db r).2 ++ (trackList f ts rs (trackReel f ts db r).1).2 = _
      rw [trackReel_eq, (ih _).2]
      simp

/-! ### Claim C2 -/

/-- Claim C2: one refresh cycle visits every tracked reel in order; each
reel is attempted at most 3 times (at least once), each failed attempt is
followed by a 2-second sleep; a reel whose first success yields v gets
exactly one new snapshot row (reel id, cycle time, v) and one record
event; a reel failing all 3 attempts gets no snapshot and no record
event; nothing else in the database changes, so one failing reel never
stops the cycle. -/
theorem track_all_views_spec (f : FetchTry) (ts : Int) (db : DB) :
    (track_all_views f ts db).1.views
      = db.views ++ db.reels.filterMap
          (fun r => (firstSuccess f r.shortcode).map (fun v => ViewRow.mk r.id ts v))
    ∧ (track_all_views f ts db).1.reels = db.reels
    ∧ (track_all_views f ts db).1.users = db.users
    ∧ (track_all_views f ts db).1.accounts = db.accounts
    ∧ (track_all_views f ts db).1.cooldowns = db.cooldowns
    ∧ (track_all_views f ts db).1.audit = db.audit
    ∧ (track_all_views f ts db).2 = db.reels.flatMap (fun r => reelTrace f r)
    ∧ (∀ r : Reel, (reelTrace f r).countP isAttempt ≤ 3
        ∧ 1 ≤ (reelTrace f r).countP isAttempt)
    ∧ (∀ r : Reel, firstSuccess f r.shortcode = none →
        (reelTrace f r).countP isRecord = 0
        ∧ (reelTrace f r).countP isAttempt = 3
        ∧ (reelTrace f r).countP isSleep2 = 3)
    ∧ (∀ (r : Reel) (v : Nat), firstSuccess f r.shortcode = some v →
        (reelTrace f r).countP isRecord = 1
        ∧ (reelTrace f r).countP isSleep2 + 1 = (reelTrace f r).countP isAttempt) := by
  have h := trackList_eq f ts db.reels db
  refine ⟨?_, ?_, ?_, ?_, ?_, ?_, ?_, ?_, ?_, ?_⟩
  · show (trackList f ts db.reels db).1.views = _
    rw [h.1]
  · show (trackList f ts db.reels db).1.reels = _
    rw [h.1]
  · show (trackList f ts db.reels db).1.users = _
    rw [h.1]
  · show (trackList f ts db.reels db).1.accounts = _
    rw [h.1]
  · show (trackList f ts db.reels db).1.cooldowns = _
    rw [h.1]
  · show (trackList f ts db.reels db).1.audit = _
    rw [h.1]
  · exact h.2
  · intro r
    exact (reelTrace_spec f r).1
  · intro r hne
    exact (reelTrace_spec f r).2.1 hne
  · intro r v hv
    exact (reelTrace_spec f r).2.2 v hv

/-- Reel that always fails to fetch in the C2 scenario. -/
def reelA : Reel := ⟨1, 1, ("aaa"), ("x")⟩

/-- Reel whose fetch succeeds in the C2 scenario. -/
def reelB : Reel := ⟨2, 1, ("bbb"), ("x")⟩

/-- Database for the C2 scenario: both reels tracked, reel 1 already has
one snapshot. -/
def dbC2 : DB :=
  ⟨[(1, ("alice"))], [], [reelA, reelB], [⟨1, 0, 3⟩], [], [], 3⟩

/-- Fetch oracle for the C2 scenario: bbb always succeeds with count 7,
everything else always fails. -/
def fC2 : FetchTry := fun code _ => if code == ("bbb") then some 7 else none

/-- Witness for C2: the cycle over dbC2 records exactly one new snapshot
(for reel 2) and leaves reel 1 snapshot history unchanged. -/
theorem track_all_views_spec_witness :
    (track_all_views fC2 5 dbC2).1.views = dbC2.views ++ [ViewRow.mk 2 5 7]
    ∧ (track_all_views fC2 5 dbC2).1.views.filter (fun v => v.reelId == 1)
        = dbC2.views
    ∧ (track_all_views fC2 5 dbC2).1.views.filter (fun v => v.reelId == 2)
        = [ViewRow.mk 2 5 7] := by
  have h := (track_all_views_spec fC2 5 dbC2).1
  refine ⟨?_, ?_, ?_⟩ <;> rw [h] <;> decide

/-! ## Cooldown check under concurrency

The cooldown phase of submit (reel_tracker_bot.py:254-272) is two
separate store operations: a SELECT of the cooldowns row, then — only
when the check passes — an upsert of that row, each behind its own await
on its own session.  Two concurrent submit requests from the same user
are modelled as two step programs over the shared cooldowns row: step one
reads the row, step two consumes it (writes the request time) when the
value read passes the check.  A schedule lists which request moves at
each step. -/

/-- Local state of one in-flight submit request: the cooldowns value it
has read, if any, and whether its write step has run. -/
structure ReqState where
  seen : Option (Option Int)
  done : Bool
deriving DecidableEq

/-- The cooldown decision on a value read from the store: pass when no
row exists or the remaining time 60 - (now - last) is not positive. -/
def passesCooldown (now : Int) (seen : Option Int) : Bool :=
  match seen with
  | none => true
  | some last => decide ((60 : Int) - (now - last) ≤ 0)

/-- One step of a request against the shared cooldowns row: first the
read, then the conditional consume; a finished request does nothing. -/
def reqStep (now : Int) (shared : Option Int) (r : ReqState) :
    Option Int × ReqState :=
  match r.seen with
  | none => (shared, { r with seen := some shared })
  | some s =>
    if r.done then (shared, r)
    else if passesCooldown now s then (some now, { r with done := true })
    else (shared, { r with done := true })

/-- Interleaved execution of two requests under a schedule: true steps
request one, false steps request two. -/
def runSched (now1 now2 : Int) :
    List Bool → Option Int × ReqState × ReqState → Option Int × ReqState × ReqState
  | [], st => st
  | w :: ws, (sh, r1, r2) =>
    if w then
      runSched now1 now2 ws ((reqStep now1 sh r1).1, (reqStep now1 sh r1).2, r2)
    else
      runSched now1 now2 ws ((reqStep now2 sh r2).1, r1, (reqStep now2 sh r2).2)

/-- A request passed the cooldown check when the value it read passes. -/
def passed (now : Int) (r : ReqState) : Bool :=
  match r.seen with
  | some s => passesCooldown now s
  | none => false

/-- Fresh request state. -/
def initReq : ReqState := ⟨none, false⟩

/-! ### Claim C9 -/

/-- Claim C9 counterexample: with no prior cooldowns row and two
simultaneous requests from the same user (both inside one cooldown window
of each other), the interleaving read-read-write-write lets both requests
pass the check — the SELECT-then-upsert pair is not a single atomic
read-modify-write. -/
theorem cooldown_not_atomic_counterexample :
    passed 100 (runSched 100 100 ([true, false, true, false])
        (none, initReq, initReq)).2.1 = true
    ∧ passed 100 (runSched 100 100 ([true, false, true, false])
        (none, initReq, initReq)).2.2 = true := by
  decide

/-- Claim C9 amended: the cooldown check and its consume are two separate
store steps (a read, then an upsert), not one atomic read-modify-write,
and an interleaving of two same-user requests can let both pass; when the
two requests execute serially (one request completes both steps before
the other starts, as under the chat framework default of sequential
update processing), at most one request within the window passes. -/
theorem cooldown_serial_at_most_one (init : Option Int) (now1 now2 : Int)
    (hwin : now2 - now1 < 60) :
    ¬(passed now1 (runSched now1 now2 ([true, true, false, false])
          (init, initReq, initReq)).2.1 = true
      ∧ passed now2 (runSched now1 now2 ([true, true, false, false])
          (init, initReq, initReq)).2.2 = true) := by
  cases hp : passesCooldown now1 init with
  | false =>
    intro hcon
    have h1 := hcon.1
    rw [show (runSched now1 now2 ([true, true, false, false])
          (init, initReq, initReq)).2.1
        = ({ seen := some init, done := true } : ReqState) from by
      simp [runSched, reqStep, initReq, hp]] at h1
    rw [show passed now1 ({ seen := some init, done := true } : ReqState)
        = passesCooldown now1 init from rfl, hp] at h1
    exact Bool.false_ne_true h1
  | true =>
    intro hcon
    cases hq : passesCooldown now2 (some now1) with
    | true =>
      have hle := of_decide_eq_true
        (show decide ((60 : Int) - (now2 - now1) ≤ 0) = true from hq)
      omega
    | false =>
      have h2 := hcon.2
      rw [show (runSched now1 now2 ([true, true, false, false])
            (init, initReq, initReq)).2.2
          = ({ seen := some (some now1), done := true } : ReqState) from by
        simp [runSched, reqStep, initReq, hp, hq]] at h2
      rw [show passed now2 ({ seen := some (some now1), done := true } : ReqState)
          = passesCooldown now2 (some now1) from rfl, hq] at h2
      exact Bool.false_ne_true h2

/-- Witness for the amended C9: with no prior row, requests at times 0
and 30 executed serially do not both pass. -/
theorem cooldown_serial_at_most_one_witness :
    ¬(passed 0 (runSched 0 30 ([true, true, false, false])
          (none, initReq, initReq)).2.1 = true
      ∧ passed 30 (runSched 0 30 ([true, true, false, false])
          (none, initReq, initReq)).2.2 = true) :=
  cooldown_serial_at_most_one none 0 30 (by decide)

end ReelBot
